import Mathlib

/-!
Shallow embedding of the vox2docs recording pipeline (rename processor,
pipeline sequencing, daemon retention, startup scan) together with proofs
about its specified behaviour.

Conventions of the embedding:
* Python `datetime` values are modelled as records of calendar fields.
  In this program every datetime in play carries the same fixed-offset
  timezone (`datetime.now().astimezone().tzinfo` is a `timezone` instance
  with a constant offset), so Python's aware-datetime comparison coincides
  with lexicographic comparison of the naive fields, which is what `dtLt`
  implements.
* Fallible Python code (raising exceptions) is modelled with `Except`.
* The filesystem is modelled as a partial map from paths (component lists)
  to file data (content plus modification time); `shutil.copy2` copies the
  file data wholesale, preserving metadata.
-/

namespace Vox2docs

/-! ### Calendar model (Python `datetime`) -/

/-- Python's Gregorian leap-year rule. -/
def isLeap (y : Int) : Bool :=
  y % 4 == 0 && (y % 100 != 0 || y % 400 == 0)

/-- Days in a month of a given year, as validated by `datetime.replace`. -/
def daysInMonth (y : Int) (m : Nat) : Nat :=
  if m = 2 then (if isLeap y then 29 else 28)
  else if m = 4 ∨ m = 6 ∨ m = 9 ∨ m = 11 then 30
  else 31

/-- A Python `datetime` (the shared fixed-offset tzinfo is left implicit). -/
structure DateTime where
  year : Int
  month : Nat
  day : Nat
  hour : Nat
  minute : Nat
  second : Nat
  microsecond : Nat
deriving DecidableEq, Repr

/-- The field ranges `datetime` enforces on construction and on `replace`
(`MINYEAR = 1`, `MAXYEAR = 9999`). -/
def DateTime.valid (t : DateTime) : Bool :=
  1 ≤ t.year && t.year ≤ 9999 &&
  1 ≤ t.month && t.month ≤ 12 &&
  1 ≤ t.day && t.day ≤ daysInMonth t.year t.month &&
  t.hour ≤ 23 && t.minute ≤ 59 && t.second ≤ 59 && t.microsecond ≤ 999999

/-- Python comparison of two aware datetimes sharing a fixed-offset tzinfo:
lexicographic on the naive fields. -/
def dtLt (a b : DateTime) : Bool :=
  if a.year < b.year then true
  else if b.year < a.year then false
  else if a.month < b.month then true
  else if b.month < a.month then false
  else if a.day < b.day then true
  else if b.day < a.day then false
  else if a.hour < b.hour then true
  else if b.hour < a.hour then false
  else if a.minute < b.minute then true
  else if b.minute < a.minute then false
  else if a.second < b.second then true
  else if b.second < a.second then false
  else decide (a.microsecond < b.microsecond)

theorem dtLt_eq_true_of_year_lt {a b : DateTime} (h : a.year < b.year) :
    dtLt a b = true := by
  simp [dtLt, h]

theorem dtLt_eq_false_of_year_lt {a b : DateTime} (h : b.year < a.year) :
    dtLt a b = false := by
  have h' : ¬ a.year < b.year := by omega
  simp [dtLt, h, h']

/-! ### `RenameProcessor.find_matching_date`
(src/vox2docs/processors/rename_processor.py, lines 152-202) -/

/-- Information extracted from a recording filename
(`RecordingInfo` dataclass). -/
structure RecordingInfo where
  month : Nat
  day : Nat
  hours : Nat
  minutes : Nat
deriving DecidableEq, Repr

/-- `reference_time.replace(year=y, month=m, day=d, hour=h, minute=mi,
second=0, microsecond=0)`: builds the candidate and raises `ValueError`
(modelled `.error ()`) when the resulting fields are invalid. -/
def replaceFields (y : Int) (m d h mi : Nat) : Except Unit DateTime :=
  let c : DateTime := ⟨y, m, d, h, mi, 0, 0⟩
  if c.valid then .ok c else .error ()

/-- The try-branch candidate: `reference_time.replace(month=..., day=...,
hour=..., minute=..., second=0, microsecond=0)` keeping the reference year. -/
def sameYearCandidate (info : RecordingInfo) (ref : DateTime) : Except Unit DateTime :=
  replaceFields ref.year info.month info.day info.hours info.minutes

/-- The except-branch candidate: same replace but with
`year=reference_time.year - 1`. -/
def prevYearCandidate (info : RecordingInfo) (ref : DateTime) : Except Unit DateTime :=
  replaceFields (ref.year - 1) info.month info.day info.hours info.minutes

/-- `candidate_time.replace(year=candidate_time.year - 1)` keeping every
other field. -/
def replaceYearOnly (t : DateTime) (y : Int) : Except Unit DateTime :=
  let c : DateTime := { t with year := y }
  if c.valid then .ok c else .error ()

/-- `RenameProcessor.find_matching_date`: try the reference year, fall back
to the preceding year when construction fails, and step the candidate back
one year when it lies strictly after the reference.  Uncaught `ValueError`s
of the fallback and of the final year replacement propagate as `.error`. -/
def find_matching_date (info : RecordingInfo) (ref : DateTime) :
    Except Unit DateTime :=
  match sameYearCandidate info ref with
  | .ok c => if dtLt ref c then replaceYearOnly c (c.year - 1) else .ok c
  | .error _ =>
    match prevYearCandidate info ref with
    | .ok c => if dtLt ref c then replaceYearOnly c (c.year - 1) else .ok c
    | .error e => .error e

/-- `true` when constructing the date in the reference year is impossible
or the same-year candidate lies strictly after the reference. -/
def sameYearImpossibleOrFuture (info : RecordingInfo) (ref : DateTime) : Bool :=
  match sameYearCandidate info ref with
  | .error _ => true
  | .ok c => dtLt ref c

/-- The C1 property of a result `d` of `find_matching_date info ref`. -/
def MatchingDateSpec (info : RecordingInfo) (ref d : DateTime) : Prop :=
  d.month = info.month ∧ d.day = info.day ∧
  d.hour = info.hours ∧ d.minute = info.minutes ∧
  d.second = 0 ∧ d.microsecond = 0 ∧
  dtLt ref d = false ∧
  (d.year = ref.year ∨ d.year = ref.year - 1) ∧
  (d.year = ref.year - 1 ↔ sameYearImpossibleOrFuture info ref = true)

/-- In-range fields of a `RecordingInfo`, as the spec states them. -/
def RecordingInfo.inRange (info : RecordingInfo) : Prop :=
  1 ≤ info.month ∧ info.month ≤ 12 ∧ 1 ≤ info.day ∧ info.day ≤ 31 ∧
  info.hours ≤ 23 ∧ info.minutes ≤ 59

instance (info : RecordingInfo) : Decidable info.inRange := by
  unfold RecordingInfo.inRange; infer_instance

theorem replaceFields_ok {y : Int} {m d h mi : Nat} {c : DateTime}
    (hc : replaceFields y m d h mi = Except.ok c) :
    c = ⟨y, m, d, h, mi, 0, 0⟩ ∧ c.valid = true := by
  simp only [replaceFields] at hc
  split at hc
  next hv =>
    cases hc
    exact ⟨rfl, hv⟩
  next =>
    cases hc

theorem replaceYearOnly_ok {t : DateTime} {y : Int} {c : DateTime}
    (hc : replaceYearOnly t y = Except.ok c) :
    c = { t with year := y } ∧ c.valid = true := by
  simp only [replaceYearOnly] at hc
  split at hc
  next hv =>
    cases hc
    exact ⟨rfl, hv⟩
  next =>
    cases hc

theorem sameYearCandidate_ok {info : RecordingInfo} {ref c : DateTime}
    (h : sameYearCandidate info ref = Except.ok c) :
    c = ⟨ref.year, info.month, info.day, info.hours, info.minutes, 0, 0⟩ ∧
      c.valid = true :=
  replaceFields_ok h

theorem prevYearCandidate_ok {info : RecordingInfo} {ref c : DateTime}
    (h : prevYearCandidate info ref = Except.ok c) :
    c = ⟨ref.year - 1, info.month, info.day, info.hours, info.minutes, 0, 0⟩ ∧
      c.valid = true :=
  replaceFields_ok h

theorem find_matching_date_eq_of_sameYear_ok {info : RecordingInfo}
    {ref c : DateTime} (h : sameYearCandidate info ref = Except.ok c) :
    find_matching_date info ref =
      if dtLt ref c then replaceYearOnly c (c.year - 1) else Except.ok c := by
  unfold find_matching_date
  rw [h]

theorem find_matching_date_eq_of_prevYear_ok {info : RecordingInfo}
    {ref c : DateTime} {u : Unit}
    (h1 : sameYearCandidate info ref = Except.error u)
    (h2 : prevYearCandidate info ref = Except.ok c) :
    find_matching_date info ref =
      if dtLt ref c then replaceYearOnly c (c.year - 1) else Except.ok c := by
  unfold find_matching_date
  rw [h1, h2]

theorem find_matching_date_eq_of_prevYear_error {info : RecordingInfo}
    {ref : DateTime} {u v : Unit}
    (h1 : sameYearCandidate info ref = Except.error u)
    (h2 : prevYearCandidate info ref = Except.error v) :
    find_matching_date info ref = Except.error v := by
  unfold find_matching_date
  rw [h1, h2]

/-- **C1** (amended): whenever `find_matching_date` returns a value on an
in-range month/day `RecordingInfo`, that value has the requested month, day,
hour and minute, zero seconds and microseconds, is not after the reference,
and its year is the reference year, or the reference year minus one exactly
when same-year construction is impossible or strictly after the reference. -/
theorem find_matching_date_resolves (info : RecordingInfo) (ref d : DateTime)
    (_hr : info.inRange) (hok : find_matching_date info ref = Except.ok d) :
    MatchingDateSpec info ref d := by
  cases h1 : sameYearCandidate info ref with
  | ok c =>
    rw [find_matching_date_eq_of_sameYear_ok h1] at hok
    obtain ⟨hc, hcv⟩ := sameYearCandidate_ok h1
    subst hc
    split at hok
    next hlt =>
      obtain ⟨hd, hdv⟩ := replaceYearOnly_ok hok
      subst hd
      refine ⟨rfl, rfl, rfl, rfl, rfl, rfl,
        dtLt_eq_false_of_year_lt (show ref.year - 1 < ref.year by omega),
        Or.inr rfl, ?_⟩
      constructor
      · intro _
        simp [sameYearImpossibleOrFuture, h1, hlt]
      · intro _
        rfl
    next hlt =>
      cases hok
      have hfalse :
          dtLt ref ⟨ref.year, info.month, info.day, info.hours, info.minutes, 0, 0⟩
            = false := by
        cases hv : dtLt ref ⟨ref.year, info.month, info.day, info.hours, info.minutes, 0, 0⟩
        · rfl
        · exact absurd hv hlt
      refine ⟨rfl, rfl, rfl, rfl, rfl, rfl, hfalse, Or.inl rfl, ?_⟩
      constructor
      · intro h
        exact absurd (show ref.year = ref.year - 1 from h) (by omega)
      · intro h
        simp only [sameYearImpossibleOrFuture, h1] at h
        exact absurd h hlt
  | error u =>
    cases h2 : prevYearCandidate info ref with
    | ok c =>
      rw [find_matching_date_eq_of_prevYear_ok h1 h2] at hok
      obtain ⟨hc, hcv⟩ := prevYearCandidate_ok h2
      subst hc
      have hfalse :
          dtLt ref ⟨ref.year - 1, info.month, info.day, info.hours, info.minutes, 0, 0⟩
            = false :=
        dtLt_eq_false_of_year_lt (show ref.year - 1 < ref.year by omega)
      split at hok
      next hlt =>
        rw [hfalse] at hlt
        exact Bool.noConfusion hlt
      next hlt =>
        cases hok
        refine ⟨rfl, rfl, rfl, rfl, rfl, rfl, hfalse, Or.inr rfl, ?_⟩
        constructor
        · intro _
          simp [sameYearImpossibleOrFuture, h1]
        · intro _
          rfl
    | error e =>
      rw [find_matching_date_eq_of_prevYear_error h1 h2] at hok
      cases hok

/-- **C1 witness**: the spec scenario — reference 2025-04-09 15:30, filename
date Dec 25 09:00 — resolves to 2024-12-25 09:00, satisfying the property. -/
theorem find_matching_date_resolves_witness :
    RecordingInfo.inRange ⟨12, 25, 9, 0⟩ ∧
      MatchingDateSpec ⟨12, 25, 9, 0⟩ ⟨2025, 4, 9, 15, 30, 0, 0⟩
        ⟨2024, 12, 25, 9, 0, 0, 0⟩ :=
  ⟨by decide, find_matching_date_resolves _ _ _ (by decide) rfl⟩

/-- **C1 counterexample**: for the in-range `RecordingInfo` Feb 29 10:30 and
reference 2023-07-01 09:00 (neither 2023 nor 2022 is a leap year) the code
raises `ValueError` instead of returning a datetime, so the claim as stated
fails. -/
theorem find_matching_date_no_result_feb29 :
    RecordingInfo.inRange ⟨2, 29, 10, 30⟩ ∧
      ¬ ∃ d, find_matching_date ⟨2, 29, 10, 30⟩ ⟨2023, 7, 1, 9, 0, 0, 0⟩
          = Except.ok d := by
  refine ⟨by decide, ?_⟩
  rintro ⟨d, hd⟩
  rw [show find_matching_date ⟨2, 29, 10, 30⟩ ⟨2023, 7, 1, 9, 0, 0, 0⟩
        = Except.error () from rfl] at hd
  cases hd

/-- **C2**: `find_matching_date` is not total on recording infos that are
calendar-valid in some year: for Feb 29 (valid in 2024) it raises an uncaught
`ValueError` both when the reference sits in 2023 (fallback year 2022 is also
non-leap) and when the reference sits in January 2024 (the same-year candidate
is in the future and the final year decrement lands on non-leap 2023). -/
theorem find_matching_date_error_branches_reachable :
    find_matching_date ⟨2, 29, 10, 0⟩ ⟨2023, 6, 15, 12, 0, 0, 0⟩ = Except.error () ∧
    find_matching_date ⟨2, 29, 10, 0⟩ ⟨2024, 1, 15, 12, 0, 0, 0⟩ = Except.error () ∧
    ∃ y : Int, DateTime.valid ⟨y, 2, 29, 10, 0, 0, 0⟩ = true :=
  ⟨rfl, rfl, ⟨2024, by decide⟩⟩

/-! ### `RenameProcessor.parse_filename`
(src/vox2docs/processors/rename_processor.py, lines 91-150)

The regex
`^(?P<day>\d{1,2}) (?P<month>\w+) at (?P<hours>\d{2})[:-](?P<minutes>\d{2})(?:\..*)?$`
is deterministic: the day group is forced to be the whole leading digit run
(a digit cannot match the following literal space), the month group is
forced to be the whole word-character run after it (a word character cannot
match the space of the literal " at "), and everything after is fixed-width.
The model below implements exactly that decomposition.  `\d` and `\w` are
modelled by their ASCII cores (the month names the parser recognises are
all ASCII). -/

/-- ASCII `\d`. -/
def isDigitChar (c : Char) : Bool := 48 ≤ c.toNat && c.toNat ≤ 57

/-- ASCII core of `\w`. -/
def isWordChar (c : Char) : Bool := c.isAlphanum || c == '_'

/-- `int()` on a digit string (most significant first). -/
def digitsToNat (ds : List Char) : Nat :=
  ds.foldl (fun acc c => 10 * acc + (c.toNat - 48)) 0

/-- The tail admitted by `(?:\..*)?$`: empty, or a dot followed by
characters, where `.` does not cross a newline and `$` also matches just
before one trailing newline. -/
def tailMatch : List Char → Bool
  | [] => true
  | ['\n'] => true
  | '.' :: t =>
    !t.contains '\n' ||
      (t.getLast? == some '\n' && !t.dropLast.contains '\n')
  | _ :: _ => false

/-- The anchored regex match: returns the `day`, `month`, `hours` and
`minutes` groups on success. -/
def matchRecording (l : List Char) : Option (Nat × String × Nat × Nat) :=
  let ds := l.takeWhile isDigitChar
  let rest1 := l.dropWhile isDigitChar
  if ds.length = 0 ∨ 2 < ds.length then none
  else
    match rest1 with
    | ' ' :: rest2 =>
      let ws := rest2.takeWhile isWordChar
      let rest3 := rest2.dropWhile isWordChar
      if ws.length = 0 then none
      else
        match rest3 with
        | ' ' :: 'a' :: 't' :: ' ' :: h1 :: h2 :: sep :: m1 :: m2 :: rest4 =>
          if isDigitChar h1 && isDigitChar h2 && (sep == ':' || sep == '-') &&
              isDigitChar m1 && isDigitChar m2 && tailMatch rest4 then
            some (digitsToNat ds, String.mk ws, digitsToNat [h1, h2],
              digitsToNat [m1, m2])
          else none
        | _ => none
    | _ => none

/-- The two ways `parse_filename` fails, mirroring the two classmethod
constructors of `InvalidFilenameError`. -/
inductive InvalidFilenameError where
  | unexpectedFormat (filename : String)
  | unknownMonth (month : String)
deriving DecidableEq, Repr

/-- The month abbreviation list of `parse_filename` (September has four
letters, every other month three). -/
def monthNames : List String :=
  ["Jan", "Feb", "Mar", "Apr", "May", "Jun",
   "Jul", "Aug", "Sept", "Oct", "Nov", "Dec"]

/-- `list.index(month_name)`: the position of the first occurrence, starting
from `i`. -/
def indexFrom (name : String) : List String → Nat → Option Nat
  | [], _ => none
  | m :: ms, i => if m = name then some i else indexFrom name ms (i + 1)

/-- `RenameProcessor.parse_filename`: regex match, then month-name lookup.
A shape mismatch raises `unexpectedFormat`; a matching shape whose month
token is not in `monthNames` raises `unknownMonth`. -/
def parse_filename (filename : String) :
    Except InvalidFilenameError RecordingInfo :=
  match matchRecording filename.toList with
  | none => .error (.unexpectedFormat filename)
  | some (day, monthName, hours, minutes) =>
    match indexFrom monthName monthNames 0 with
    | none => .error (.unknownMonth monthName)
    | some i => .ok ⟨i + 1, day, hours, minutes⟩

theorem indexFrom_lt {name : String} {ms : List String} {i j : Nat}
    (h : indexFrom name ms i = some j) : j < i + ms.length := by
  induction ms generalizing i with
  | nil => cases h
  | cons m ms ih =>
    simp only [indexFrom] at h
    split at h
    · cases h
      simp
    · have := ih h
      simp only [List.length_cons]
      omega

theorem indexFrom_none {name : String} {ms : List String} {i : Nat}
    (h : indexFrom name ms i = none) : name ∉ ms := by
  induction ms generalizing i with
  | nil => simp
  | cons m ms ih =>
    simp only [indexFrom] at h
    split at h
    next => cases h
    next hne =>
      simp only [List.mem_cons, not_or]
      exact ⟨fun he => hne he.symm, ih h⟩

theorem digitsToNat_le_99 {ds : List Char}
    (hall : ∀ c ∈ ds, isDigitChar c = true) (hlen : ds.length ≤ 2) :
    digitsToNat ds ≤ 99 := by
  match ds, hlen with
  | [], _ => simp [digitsToNat]
  | [a], _ =>
    have ha := hall a (by simp)
    simp only [isDigitChar, Bool.and_eq_true, decide_eq_true_eq] at ha
    simp only [digitsToNat, List.foldl]
    omega
  | [a, b], _ =>
    have ha := hall a (by simp)
    have hb := hall b (by simp)
    simp only [isDigitChar, Bool.and_eq_true, decide_eq_true_eq] at ha hb
    simp only [digitsToNat, List.foldl]
    omega

theorem matchRecording_bounds {l : List Char} {day : Nat} {mn : String}
    {hrs mins : Nat} (h : matchRecording l = some (day, mn, hrs, mins)) :
    day ≤ 99 ∧ hrs ≤ 99 ∧ mins ≤ 99 := by
  simp only [matchRecording] at h
  split at h
  next => cases h
  next hlen =>
    split at h
    next =>
      split at h
      next => cases h
      next =>
        split at h
        next =>
          split at h
          next hcond =>
            simp only [Bool.and_eq_true, Bool.or_eq_true] at hcond
            obtain ⟨⟨⟨⟨⟨hd1, hd2⟩, hsep⟩, hd3⟩, hd4⟩, htail⟩ := hcond
            cases h
            refine ⟨?_, ?_, ?_⟩
            · exact digitsToNat_le_99
                (fun c hc => List.mem_takeWhile_imp hc) (by omega)
            · exact digitsToNat_le_99
                (by intro c hc; simp at hc; rcases hc with h | h <;> simp [h, hd1, hd2])
                (by simp)
            · exact digitsToNat_le_99
                (by intro c hc; simp at hc; rcases hc with h | h <;> simp [h, hd3, hd4])
                (by simp)
          next => cases h
        next => cases h
    next => cases h

/-- **C5** (amended): a successful `parse_filename` yields a month between 1
and 12 (from the twelve-name lookup), and day, hours and minutes bounded only
by their digit counts (day at most two digits, hours and minutes exactly
two), i.e. each at most 99; the parser enforces no calendar or clock ranges
beyond that. -/
theorem parse_filename_field_bounds (f : String) (info : RecordingInfo)
    (h : parse_filename f = Except.ok info) :
    1 ≤ info.month ∧ info.month ≤ 12 ∧ info.day ≤ 99 ∧
      info.hours ≤ 99 ∧ info.minutes ≤ 99 := by
  unfold parse_filename at h
  split at h
  next => cases h
  next day monthName hours minutes hm =>
    split at h
    next => cases h
    next i hidx =>
      cases h
      have hb := matchRecording_bounds hm
      have hlt := indexFrom_lt hidx
      simp only [monthNames, List.length_cons, List.length_nil] at hlt
      exact ⟨show 1 ≤ i + 1 by omega, show i + 1 ≤ 12 by omega,
        hb.1, hb.2.1, hb.2.2⟩

/-- **C5 witness**: parsing "23 Aug at 10:30.m4a" succeeds with month 8, day
23, hours 10, minutes 30, and the bounds hold there. -/
theorem parse_filename_field_bounds_witness :
    parse_filename "23 Aug at 10:30.m4a" = Except.ok ⟨8, 23, 10, 30⟩ ∧
      (1 ≤ (8 : Nat) ∧ (8 : Nat) ≤ 12 ∧ (23 : Nat) ≤ 99 ∧
        (10 : Nat) ≤ 99 ∧ (30 : Nat) ≤ 99) :=
  ⟨rfl, parse_filename_field_bounds "23 Aug at 10:30.m4a" ⟨8, 23, 10, 30⟩ rfl⟩

/-- **C5 counterexample**: "99 Jan at 77-88.m4a" parses successfully with
day 99 and hours 77, violating the claimed ranges day 1-31 and hours 0-23. -/
theorem parse_filename_accepts_out_of_range :
    parse_filename "99 Jan at 77-88.m4a" = Except.ok ⟨1, 99, 77, 88⟩ ∧
      ¬ ((99 : Nat) ≤ 31 ∧ (77 : Nat) ≤ 23) :=
  ⟨rfl, by decide⟩

/-- **C6 counterexample**: "Invaliday at 10:30.m4a" does not yield a
weekday-specific error distinct from the format error — the parser has no
weekday form at all (the shape requires a leading one-or-two-digit day), so
this filename fails with the unexpected-format error itself. -/
theorem parse_filename_invaliday_is_format_error :
    parse_filename "Invaliday at 10:30.m4a"
      = Except.error (.unexpectedFormat "Invaliday at 10:30.m4a") := rfl

/-- **C6** (amended): structurally malformed filenames — including both
spec examples and "Invaliday at 10:30.m4a", which lacks the leading day
digits the shape requires — fail with the `unexpectedFormat` variant, while
a filename of the recognised shape whose month token is not one of the
twelve abbreviations fails with the distinct `unknownMonth` variant; every
`unknownMonth` failure really is "right shape, bad name": the regex matched
and the month token is outside `monthNames`. -/
theorem parse_filename_error_kinds :
    parse_filename "invalid-filename.m4a"
        = Except.error (.unexpectedFormat "invalid-filename.m4a") ∧
    parse_filename "Monday 10:30.m4a"
        = Except.error (.unexpectedFormat "Monday 10:30.m4a") ∧
    parse_filename "Invaliday at 10:30.m4a"
        = Except.error (.unexpectedFormat "Invaliday at 10:30.m4a") ∧
    parse_filename "23 Xyz at 10:30.m4a"
        = Except.error (.unknownMonth "Xyz") ∧
    (∀ f mn, InvalidFilenameError.unexpectedFormat f
        ≠ InvalidFilenameError.unknownMonth mn) ∧
    (∀ f mn, parse_filename f = Except.error (.unknownMonth mn) →
        mn ∉ monthNames ∧
          ∃ g, matchRecording f.toList = some g ∧ g.2.1 = mn) := by
  refine ⟨rfl, rfl, rfl, rfl, fun f mn => by simp, fun f mn h => ?_⟩
  unfold parse_filename at h
  split at h
  next =>
    cases h
  next day monthName hours minutes hm =>
    split at h
    next hidx =>
      cases h
      exact ⟨indexFrom_none hidx, ⟨_, hm, rfl⟩⟩
    next =>
      cases h

/-- **C6 witness**: for "23 Xyz at 10:30.m4a" the unknown-month failure
indeed comes with a successful shape match on the token "Xyz", which is not
a recognised month name. -/
theorem parse_filename_error_kinds_witness :
    "Xyz" ∉ monthNames ∧
      ∃ g, matchRecording (String.toList "23 Xyz at 10:30.m4a") = some g ∧
        g.2.1 = "Xyz" :=
  parse_filename_error_kinds.2.2.2.2.2 "23 Xyz at 10:30.m4a" "Xyz" rfl

/-! ### Filesystem model

Paths are component lists; the filesystem maps a path to file data (an
abstract content tag plus the modification time).  `shutil.copy2` copies
the file data wholesale, so metadata is preserved. -/

/-- A filesystem path, as its components. -/
abbrev FPath := List String

/-- A file: abstract content plus modification time. -/
structure FileData where
  content : Nat
  mtime : DateTime
deriving DecidableEq, Repr

/-- The filesystem state. -/
def FS : Type := FPath → Option FileData

/-- The empty filesystem. -/
def fsEmpty : FS := fun _ => none

/-- Create or overwrite the file at `p` (what `shutil.copy2` and `open(
"w")` do at the destination). -/
def fsSet (fs : FS) (p : FPath) (f : FileData) : FS :=
  fun q => if q = p then some f else fs q

/-- `Path.unlink`. -/
def fsErase (fs : FS) (p : FPath) : FS :=
  fun q => if q = p then none else fs q

/-- `PurePath.name`: the final component. -/
def lastComponent (p : FPath) : String := p.getLast?.getD ""

/-- Index of the last dot of the name, tracking position `i`. -/
def lastDotIdxAux : List Char → Nat → Option Nat → Option Nat
  | [], _, acc => acc
  | c :: t, i, acc => lastDotIdxAux t (i + 1) (if c = '.' then some i else acc)

/-- `PurePath.suffix` of a single name: the substring from the last dot,
provided that dot is neither the first nor the last character. -/
def pathSuffix (name : String) : String :=
  let l := name.toList
  match lastDotIdxAux l 0 none with
  | none => ""
  | some i => if 0 < i ∧ i < l.length - 1 then String.mk (l.drop i) else ""

/-- Zero-padded decimal rendering of width `w`. -/
def padNat (w n : Nat) : String :=
  let s := toString n
  String.mk (List.replicate (w - s.length) '0') ++ s

/-- `strftime("%Y-%m-%d-%H-%M")`. -/
def formatDateTime (dt : DateTime) : String :=
  padNat 4 dt.year.toNat ++ "-" ++ padNat 2 dt.month ++ "-" ++
    padNat 2 dt.day ++ "-" ++ padNat 2 dt.hour ++ "-" ++ padNat 2 dt.minute

/-- The `str(...)` of an `InvalidFilenameError`, as built by its two
classmethod constructors. -/
def InvalidFilenameError.message : InvalidFilenameError → String
  | .unexpectedFormat f => "Filename " ++ f ++ " does not match expected format"
  | .unknownMonth m => "Unknown month " ++ m ++ " in filename"

/-! ### Configuration (src/vox2docs/config.py) and the processors -/

/-- `MonitorConfig`. -/
structure MonitorConfig where
  input_directory : FPath
  extensions : List String
deriving DecidableEq, Repr

/-- `RenameProcessorConfig`. -/
structure RenameProcessorConfig where
  output_directory : FPath
deriving DecidableEq, Repr

/-- `TranscribeProcessorConfig`. -/
structure TranscribeProcessorConfig where
  output_directory : FPath
deriving DecidableEq, Repr

/-- `Config`: the application configuration tree.  All sections are always
present (pydantic gives each a default factory). -/
structure Config where
  base_directory : FPath
  monitor : MonitorConfig
  rename : RenameProcessorConfig
  transcribe : TranscribeProcessorConfig
deriving DecidableEq, Repr

/-- The pure part of `RenameProcessor.process`: stat the input for its
modification time (the reference), parse the filename, resolve the date and
compute the output path.  Errors carry the exception rendered as a string. -/
def renameResolve (cfg : RenameProcessorConfig) (fs : FS) (input : FPath) :
    Except String (FileData × FPath) :=
  match fs input with
  | none => .error "FileNotFoundError"
  | some file =>
    match parse_filename (lastComponent input) with
    | .error e => .error e.message
    | .ok info =>
      match find_matching_date info file.mtime with
      | .error _ => .error "ValueError"
      | .ok dt =>
        let outName := formatDateTime dt ++ pathSuffix (lastComponent input)
        .ok (file, cfg.output_directory ++ [outName])

/-- `RenameProcessor.process`: resolve, then `shutil.copy2` the input file
to the output path (`mkdir` of the output directory is a no-op in this
model).  The input file is read, never written. -/
def renameProcess (cfg : RenameProcessorConfig) (fs : FS) (input : FPath) :
    Except String (FS × FPath) :=
  (renameResolve cfg fs input).map fun fo => (fsSet fs fo.2 fo.1, fo.2)

/-- A pipeline stage: a name and a `process` action on the filesystem.  A
failing stage is modelled as atomic (it reports an error without changing
the filesystem). -/
structure Proc where
  name : String
  run : FS → FPath → Except String (FS × FPath)

/-- The rename stage. -/
def renameProc (cfg : RenameProcessorConfig) : Proc :=
  ⟨"rename", renameProcess cfg⟩

/-- `create_processor`: the factory maps `RenameProcessorConfig` to
`RenameProcessor` by its naming convention. -/
def create_processor (cfg : RenameProcessorConfig) : Proc := renameProc cfg

/-! ### Pipeline (src/vox2docs/pipeline.py) -/

/-- `PipelineExecutionError.from_processor(processor.name)` raised
`from e`: the failing stage and the original cause. -/
structure PipelineExecutionError where
  processorName : String
  cause : String
deriving DecidableEq, Repr

/-- The message of `PipelineExecutionError.from_processor`. -/
def PipelineExecutionError.message (e : PipelineExecutionError) : String :=
  "Error in " ++ e.processorName ++ " processor"

/-- `Pipeline.from_config`: builds the processor list from the
configuration — only the rename stage is instantiated. -/
def Pipeline.from_config (cfg : Config) : List Proc :=
  [create_processor cfg.rename]

/-- One `process` invocation as recorded while the pipeline loop runs:
stage name, the input it was fed, and its output (none when it failed). -/
structure StepCall where
  name : String
  input : FPath
  output : Option FPath
deriving DecidableEq, Repr

/-- The pipeline loop, instrumented with the list of invocations: runs the
stages in order, threading each output path into the next stage, stopping
at the first failure and wrapping it with the stage's name. -/
def pipelineSteps : List Proc → FS → FPath →
    List StepCall × FS × Except PipelineExecutionError FPath
  | [], fs, p => ([], fs, .ok p)
  | proc :: rest, fs, p =>
    match proc.run fs p with
    | .ok (fs1, p1) =>
      let r := pipelineSteps rest fs1 p1
      (⟨proc.name, p, some p1⟩ :: r.1, r.2.1, r.2.2)
    | .error c => ([⟨proc.name, p, none⟩], fs, .error ⟨proc.name, c⟩)

/-- `Pipeline.process`: the loop above; the method is annotated `-> None`
and has no return statement, so on success the caller receives `None`
(modelled `none`), not the final path. -/
def Pipeline.process (procs : List Proc) (fs : FS) (p : FPath) :
    FS × Except PipelineExecutionError (Option FPath) :=
  let r := pipelineSteps procs fs p
  (r.2.1, r.2.2.map fun _ => none)

/-- The daemon loop body for one dequeued path (src/vox2docs/daemon.py,
lines 60-71): run the pipeline, then `path.unlink()` only when it did not
raise; on `PipelineExecutionError` the file is left in place. -/
def daemonStep (procs : List Proc) (fs : FS) (path : FPath) : FS :=
  match Pipeline.process procs fs path with
  | (fs1, .ok _) => fsErase fs1 path
  | (fs1, .error _) => fs1

/-! ### Startup scan (src/vox2docs/monitor.py, lines 102-128) -/

/-- A directory entry seen by `Path.iterdir`. -/
structure DirEntry where
  name : String
  isDir : Bool
  size : Nat
deriving DecidableEq, Repr

/-- `NewFileMonitor._scan_existing_files`, faithfully including its use of
`return` (not `continue`) inside the `for` loop: the first entry that is a
directory, has an unmonitored extension, or is empty ends the whole scan.
Returns the names appended to the queue. -/
def scanExistingFiles (extensions : List String) : List DirEntry → List String
  | [] => []
  | e :: rest =>
    if e.isDir then []
    else if ¬ extensions.contains (pathSuffix e.name) then []
    else if e.size = 0 then []
    else e.name :: scanExistingFiles extensions rest

/-- A fixed file used by the concrete pipeline scenarios. -/
def fileA : FileData := ⟨7, ⟨2025, 1, 1, 0, 0, 0, 0⟩⟩

/-- A stage that writes an artifact and hands its path on. -/
def stageOne : Proc :=
  ⟨"one", fun fs _ => Except.ok (fsSet fs ["stage1.out"] fileA, ["stage1.out"])⟩

/-- A stage that always fails. -/
def stageTwo : Proc := ⟨"two", fun _ _ => Except.error "boom"⟩

/-- A stage that passes its input through. -/
def stageThree : Proc := ⟨"three", fun fs p => Except.ok (fs, p)⟩

/-! ### Proofs about the rename stage, the pipeline and the scan -/

theorem renameResolve_ok_file {cfg : RenameProcessorConfig} {fs : FS}
    {input out : FPath} {file : FileData}
    (h : renameResolve cfg fs input = Except.ok (file, out)) :
    fs input = some file := by
  unfold renameResolve at h
  split at h
  next => cases h
  next f hf =>
    split at h
    next => cases h
    next =>
      split at h
      next => cases h
      next =>
        cases h
        exact hf

theorem renameProcess_ok {cfg : RenameProcessorConfig} {fs fs1 : FS}
    {input out : FPath} (h : renameProcess cfg fs input = Except.ok (fs1, out)) :
    ∃ file, renameResolve cfg fs input = Except.ok (file, out) ∧
      fs input = some file ∧ fs1 = fsSet fs out file := by
  unfold renameProcess at h
  cases hres : renameResolve cfg fs input with
  | error e =>
    rw [hres] at h
    cases h
  | ok fo =>
    obtain ⟨file, outp⟩ := fo
    rw [hres] at h
    simp only [Except.map, Except.ok.injEq, Prod.mk.injEq] at h
    obtain ⟨hfs, hout⟩ := h
    subst hout
    exact ⟨file, rfl, renameResolve_ok_file hres, hfs.symm⟩

/-- **C10**: when a second input resolves to the very output path at which a
first processed file already left an artifact, the rename step does not
fail — it overwrites the artifact with a copy of the second file. -/
theorem rename_overwrites_duplicate (cfg : RenameProcessorConfig)
    (fs fs1 : FS) (input1 input2 out : FPath) (f2 : FileData)
    (h1 : renameProcess cfg fs input1 = Except.ok (fs1, out))
    (h2 : renameResolve cfg fs1 input2 = Except.ok (f2, out)) :
    (∃ g, fs1 out = some g) ∧
    renameProcess cfg fs1 input2 = Except.ok (fsSet fs1 out f2, out) ∧
    fsSet fs1 out f2 out = some f2 := by
  obtain ⟨f1, -, -, hset⟩ := renameProcess_ok h1
  refine ⟨⟨f1, ?_⟩, ?_, ?_⟩
  · rw [hset]
    simp [fsSet]
  · unfold renameProcess
    rw [h2]
    rfl
  · simp [fsSet]

theorem pipelineSteps_cons_ok {x : Proc} {procs : List Proc} {fs fs1 : FS}
    {p p1 : FPath} (h : x.run fs p = Except.ok (fs1, p1)) :
    pipelineSteps (x :: procs) fs p =
      ((⟨x.name, p, some p1⟩ : StepCall) :: (pipelineSteps procs fs1 p1).1,
        (pipelineSteps procs fs1 p1).2.1, (pipelineSteps procs fs1 p1).2.2) := by
  simp only [pipelineSteps]
  rw [h]

theorem pipelineSteps_cons_error {x : Proc} {procs : List Proc} {fs : FS}
    {p : FPath} {c : String} (h : x.run fs p = Except.error c) :
    pipelineSteps (x :: procs) fs p =
      ([⟨x.name, p, none⟩], fs, Except.error ⟨x.name, c⟩) := by
  unfold pipelineSteps
  rw [h]

theorem pipelineSteps_append_ok (ys : List Proc) {xs : List Proc}
    {fs fs1 : FS} {p p1 : FPath} {tr : List StepCall}
    (h : pipelineSteps xs fs p = (tr, fs1, Except.ok p1)) :
    pipelineSteps (xs ++ ys) fs p =
      (tr ++ (pipelineSteps ys fs1 p1).1,
        (pipelineSteps ys fs1 p1).2.1, (pipelineSteps ys fs1 p1).2.2) := by
  induction xs generalizing fs p tr with
  | nil =>
    simp only [pipelineSteps, Prod.mk.injEq] at h
    obtain ⟨h1, h2, h3⟩ := h
    cases h3
    subst h1 h2
    simp
  | cons x xs ih =>
    cases hx : x.run fs p with
    | ok fp =>
      rw [pipelineSteps_cons_ok hx] at h
      rcases hps : pipelineSteps xs fp.1 fp.2 with ⟨tr2, fs2, res2⟩
      rw [hps] at h
      simp only [Prod.mk.injEq] at h
      obtain ⟨h1, h2, h3⟩ := h
      subst h1 h2
      rw [List.cons_append, pipelineSteps_cons_ok hx,
        ih (by rw [hps, h3]), List.cons_append]
    | error c =>
      rw [pipelineSteps_cons_error hx] at h
      simp only [Prod.mk.injEq] at h
      exact absurd h.2.2 (by simp)

/-- **C3**: when the stages before `bad` succeed and `bad` fails, the
pipeline performs exactly the successful prefix invocations plus the failed
one (no `post` stage is ever invoked), fails with an error carrying `bad`'s
name and the original cause, and returns the filesystem exactly as the
successful prefix left it — the artifacts already produced stay in place. -/
theorem pipeline_stage_failure_aborts (pre : List Proc) (bad : Proc)
    (post : List Proc) (fs fs1 : FS) (p p1 : FPath) (tr : List StepCall)
    (c : String) (h1 : pipelineSteps pre fs p = (tr, fs1, Except.ok p1))
    (h2 : bad.run fs1 p1 = Except.error c) :
    pipelineSteps (pre ++ bad :: post) fs p
        = (tr ++ [⟨bad.name, p1, none⟩], fs1, Except.error ⟨bad.name, c⟩)
    ∧ Pipeline.process (pre ++ bad :: post) fs p
        = (fs1, Except.error ⟨bad.name, c⟩) := by
  have hall := pipelineSteps_append_ok (bad :: post) h1
  rw [pipelineSteps_cons_error h2] at hall
  refine ⟨hall, ?_⟩
  unfold Pipeline.process
  rw [hall]
  rfl

/-- **C3 witness**: a three-stage pipeline whose second stage fails: stage
three is not invoked, the error names stage two and carries its cause, and
stage one's output artifact is still on the filesystem. -/
theorem pipeline_stage_failure_aborts_witness :
    pipelineSteps [stageOne, stageTwo, stageThree] fsEmpty ["in"]
        = ([⟨"one", ["in"], some ["stage1.out"]⟩, ⟨"two", ["stage1.out"], none⟩],
            fsSet fsEmpty ["stage1.out"] fileA, Except.error ⟨"two", "boom"⟩)
    ∧ Pipeline.process [stageOne, stageTwo, stageThree] fsEmpty ["in"]
        = (fsSet fsEmpty ["stage1.out"] fileA, Except.error ⟨"two", "boom"⟩) :=
  pipeline_stage_failure_aborts [stageOne] stageTwo [stageThree] fsEmpty
    (fsSet fsEmpty ["stage1.out"] fileA) ["in"] ["stage1.out"]
    [⟨"one", ["in"], some ["stage1.out"]⟩] "boom" rfl rfl

/-- Whether a trace starts at `p` and feeds each recorded output into the
next recorded input (a failed entry must be last). -/
def chainedFrom (p : FPath) : List StepCall → Bool
  | [] => true
  | e :: rest =>
    decide (e.input = p) &&
      match e.output with
      | some q => chainedFrom q rest
      | none => rest.isEmpty

/-- The path threaded through a trace: the last recorded output. -/
def lastThreaded (p : FPath) (tr : List StepCall) : FPath :=
  tr.foldl (fun acc e => e.output.getD acc) p

/-- **C7** (amended): the pipeline feeds the original path to the first
stage and each stage's output to the next (the trace is chained), runs the
stages in order, and threads the last output internally — but `process`
returns `None` on success, not the last stage's output path. -/
theorem pipeline_threads_paths (procs : List Proc) (fs fs1 : FS) (p q : FPath)
    (tr : List StepCall)
    (h : pipelineSteps procs fs p = (tr, fs1, Except.ok q)) :
    chainedFrom p tr = true ∧
    tr.map StepCall.name = procs.map Proc.name ∧
    lastThreaded p tr = q ∧
    Pipeline.process procs fs p = (fs1, Except.ok none) := by
  induction procs generalizing fs p tr with
  | nil =>
    simp only [pipelineSteps, Prod.mk.injEq, Except.ok.injEq] at h
    obtain ⟨h1, h2, h3⟩ := h
    subst h1
    subst h2
    subst h3
    exact ⟨rfl, rfl, rfl, rfl⟩
  | cons x xs ih =>
    cases hx : x.run fs p with
    | error c =>
      rw [pipelineSteps_cons_error hx] at h
      simp only [Prod.mk.injEq] at h
      exact absurd h.2.2 (by simp)
    | ok fp =>
      rw [pipelineSteps_cons_ok hx] at h
      rcases hps : pipelineSteps xs fp.1 fp.2 with ⟨tr2, fs2, res2⟩
      rw [hps] at h
      simp only [Prod.mk.injEq] at h
      obtain ⟨h1, h2, h3⟩ := h
      subst h1
      subst h2
      rw [h3] at hps
      obtain ⟨ih1, ih2, ih3, ih4⟩ := ih fp.1 fp.2 tr2 hps
      have hfull : pipelineSteps (x :: xs) fs p
          = ((⟨x.name, p, some fp.2⟩ : StepCall) :: tr2, fs2, Except.ok q) := by
        rw [pipelineSteps_cons_ok hx, hps]
      refine ⟨?_, ?_, ?_, ?_⟩
      · simp [chainedFrom, ih1]
      · simp [ih2]
      · exact ih3
      · unfold Pipeline.process
        rw [hfull]
        rfl

/-- A single stage that succeeds and produces the output path "out". -/
def soleStage : Proc := ⟨"solo", fun fs _ => Except.ok (fs, ["out"])⟩

/-- **C7 counterexample**: a one-stage pipeline whose stage outputs the path
"out": `Pipeline.process` returns `None` (the method is `-> None` with no
return statement), not that output path — even though the loop computed it. -/
theorem pipeline_returns_none_not_path :
    (Pipeline.process [soleStage] fsEmpty ["in"]).2 = Except.ok none ∧
    (Pipeline.process [soleStage] fsEmpty ["in"]).2 ≠ Except.ok (some ["out"]) ∧
    (pipelineSteps [soleStage] fsEmpty ["in"]).2.2 = Except.ok ["out"] := by
  refine ⟨rfl, ?_, rfl⟩
  intro hcontra
  rw [show (Pipeline.process [soleStage] fsEmpty ["in"]).2
      = Except.ok (none : Option FPath) from rfl] at hcontra
  simp at hcontra

/-- A successful two-stage pipeline used as the C7 witness scenario. -/
def stageAlpha : Proc := ⟨"alpha", fun fs _ => Except.ok (fs, ["mid"])⟩

/-- Second stage of the C7 witness scenario. -/
def stageBeta : Proc := ⟨"beta", fun fs _ => Except.ok (fs, ["fin"])⟩

/-- **C7 witness**: on the two-stage pipeline the trace is chained from
"in" through "mid" to "fin", stage names appear in order, and `process`
succeeds returning `None`. -/
theorem pipeline_threads_paths_witness :
    chainedFrom ["in"]
        [⟨"alpha", ["in"], some ["mid"]⟩, ⟨"beta", ["mid"], some ["fin"]⟩]
        = true ∧
    ([⟨"alpha", ["in"], some ["mid"]⟩,
        ⟨"beta", ["mid"], some ["fin"]⟩] : List StepCall).map StepCall.name
      = [stageAlpha, stageBeta].map Proc.name ∧
    lastThreaded ["in"]
        [⟨"alpha", ["in"], some ["mid"]⟩, ⟨"beta", ["mid"], some ["fin"]⟩]
      = ["fin"] ∧
    Pipeline.process [stageAlpha, stageBeta] fsEmpty ["in"]
      = (fsEmpty, Except.ok none) :=
  pipeline_threads_paths [stageAlpha, stageBeta] fsEmpty fsEmpty ["in"] ["fin"]
    [⟨"alpha", ["in"], some ["mid"]⟩, ⟨"beta", ["mid"], some ["fin"]⟩] rfl

/-- A configuration with both a rename and a transcribe section. -/
def cfgBoth : Config :=
  ⟨["base"], ⟨["inbox"], [".m4a"]⟩, ⟨["recordings"]⟩, ⟨["transcripts", "raw"]⟩⟩

/-- **C8 counterexample**: `cfgBoth` has both a rename and a transcribe
section, yet the pipeline built from it consists of the single rename stage
— no transcribe stage is instantiated. -/
theorem from_config_ignores_transcribe :
    (Pipeline.from_config cfgBoth).map Proc.name = ["rename"] ∧
    "transcribe" ∉ (Pipeline.from_config cfgBoth).map Proc.name ∧
    cfgBoth.transcribe = ⟨["transcripts", "raw"]⟩ := by
  refine ⟨rfl, ?_, rfl⟩
  decide

/-- **C8** (amended): `Pipeline.from_config` always builds the pipeline
`[rename]` from the configuration's rename section; the transcribe section,
though always present in the configuration, is not instantiated. -/
theorem from_config_builds_rename_only (cfg : Config) :
    (Pipeline.from_config cfg).map Proc.name = ["rename"] := rfl

/-- **C4**: the rename stage never deletes or modifies the input file (it
copies), and the daemon deletes the original only after the pipeline built
from the configuration reports success; on pipeline failure the original is
retained unchanged. -/
theorem original_file_retention (cfg : Config) (fs : FS) (path : FPath) :
    (∀ fs2 out, renameProcess cfg.rename fs path = Except.ok (fs2, out) →
        fs2 path = fs path) ∧
    (∀ e, (Pipeline.process (Pipeline.from_config cfg) fs path).2
          = Except.error e →
        daemonStep (Pipeline.from_config cfg) fs path path = fs path) ∧
    (∀ v, (Pipeline.process (Pipeline.from_config cfg) fs path).2
          = Except.ok v →
        daemonStep (Pipeline.from_config cfg) fs path path = none) := by
  refine ⟨?_, ?_, ?_⟩
  · intro fs2 out hok
    obtain ⟨file, -, hfile, hset⟩ := renameProcess_ok hok
    subst hset
    unfold fsSet
    by_cases hpo : path = out
    · rw [if_pos hpo, hfile]
    · rw [if_neg hpo]
  · intro e herr
    cases hrun : renameProcess cfg.rename fs path with
    | ok fp =>
      have hx : (renameProc cfg.rename).run fs path = Except.ok (fp.1, fp.2) :=
        hrun
      have hproc : Pipeline.process (Pipeline.from_config cfg) fs path
          = (fp.1, Except.ok none) := by
        unfold Pipeline.process Pipeline.from_config create_processor
        rw [pipelineSteps_cons_ok hx]
        rfl
      rw [hproc] at herr
      simp at herr
    | error c =>
      have hx : (renameProc cfg.rename).run fs path = Except.error c := hrun
      have hproc : Pipeline.process (Pipeline.from_config cfg) fs path
          = (fs, Except.error ⟨"rename", c⟩) := by
        unfold Pipeline.process Pipeline.from_config create_processor
        rw [pipelineSteps_cons_error hx]
        rfl
      have hds : daemonStep (Pipeline.from_config cfg) fs path = fs := by
        unfold daemonStep
        rw [hproc]
      rw [hds]
  · intro v hok
    cases hrun : renameProcess cfg.rename fs path with
    | error c =>
      have hx : (renameProc cfg.rename).run fs path = Except.error c := hrun
      have hproc : Pipeline.process (Pipeline.from_config cfg) fs path
          = (fs, Except.error ⟨"rename", c⟩) := by
        unfold Pipeline.process Pipeline.from_config create_processor
        rw [pipelineSteps_cons_error hx]
        rfl
      rw [hproc] at hok
      simp at hok
    | ok fp =>
      have hx : (renameProc cfg.rename).run fs path = Except.ok (fp.1, fp.2) :=
        hrun
      have hproc : Pipeline.process (Pipeline.from_config cfg) fs path
          = (fp.1, Except.ok none) := by
        unfold Pipeline.process Pipeline.from_config create_processor
        rw [pipelineSteps_cons_ok hx]
        rfl
      have hds : daemonStep (Pipeline.from_config cfg) fs path
          = fsErase fp.1 path := by
        unfold daemonStep
        rw [hproc]
      rw [hds]
      unfold fsErase
      rw [if_pos rfl]

/-- The reference modification time used by the concrete scenarios. -/
def refDT : DateTime := ⟨2025, 4, 9, 15, 30, 0, 0⟩

/-- A recorded input file. -/
def fileRec : FileData := ⟨42, refDT⟩

/-- A well-named input path. -/
def inPath0 : FPath := ["inbox", "1 Jan at 10:30.m4a"]

/-- Filesystem holding only the well-named input. -/
def fs0 : FS := fsSet fsEmpty inPath0 fileRec

/-- A badly-named input path. -/
def badPath0 : FPath := ["inbox", "invalid.m4a"]

/-- Filesystem holding only the badly-named input. -/
def fsB : FS := fsSet fsEmpty badPath0 fileRec

/-- **C4 witness**: after a successful run the daemon has deleted the
original; after a failed run (unparseable name) the original is still in
the input directory with its data intact. -/
theorem original_file_retention_witness :
    daemonStep (Pipeline.from_config cfgBoth) fs0 inPath0 inPath0 = none ∧
    daemonStep (Pipeline.from_config cfgBoth) fsB badPath0 badPath0
      = fsB badPath0 ∧
    fsB badPath0 = some fileRec :=
  ⟨(original_file_retention cfgBoth fs0 inPath0).2.2 none rfl,
   (original_file_retention cfgBoth fsB badPath0).2.1 _ rfl,
   rfl⟩

/-- First duplicate-resolving input. -/
def inDup1 : FPath := ["inbox", "1 Jan at 10:30.m4a"]

/-- Second duplicate-resolving input: different filename (dash separator),
same canonical output name. -/
def inDup2 : FPath := ["inbox", "1 Jan at 10-30.m4a"]

/-- The shared canonical output path of the two duplicates. -/
def outDup : FPath := ["recordings", "2025-01-01-10-30.m4a"]

/-- Content of the first duplicate. -/
def fileX : FileData := ⟨1, refDT⟩

/-- Content of the second duplicate. -/
def fileY : FileData := ⟨2, refDT⟩

/-- Filesystem holding the two duplicate-resolving inputs. -/
def fsDup0 : FS := fsSet (fsSet fsEmpty inDup1 fileX) inDup2 fileY

/-- Filesystem after the first duplicate has been processed. -/
def fsDup1 : FS := fsSet fsDup0 outDup fileX

/-- **C10 witness**: "1 Jan at 10:30.m4a" and "1 Jan at 10-30.m4a" resolve
to the same output name; processing the second after the first succeeds and
silently replaces the artifact (content 1) with a copy of the second file
(content 2). -/
theorem rename_overwrites_duplicate_witness :
    (∃ g, fsDup1 outDup = some g) ∧
    renameProcess cfgBoth.rename fsDup1 inDup2
      = Except.ok (fsSet fsDup1 outDup fileY, outDup) ∧
    fsSet fsDup1 outDup fileY outDup = some fileY :=
  rename_overwrites_duplicate cfgBoth.rename fsDup0 fsDup1 inDup1 inDup2
    outDup fileY rfl rfl

/-- **C9**: `_scan_existing_files` uses `return` instead of `continue`: the
first non-matching entry (here a directory, or a wrong-extension file) ends
the whole scan, so the matching file "a.m4a" listed after it is never
enqueued — although it is enqueued when scanned on its own. -/
theorem scan_stops_at_first_nonmatching :
    scanExistingFiles [".m4a"] [⟨"notes", true, 0⟩, ⟨"a.m4a", false, 5⟩] = [] ∧
    scanExistingFiles [".m4a"] [⟨"b.txt", false, 3⟩, ⟨"a.m4a", false, 5⟩] = [] ∧
    scanExistingFiles [".m4a"] [⟨"a.m4a", false, 5⟩] = ["a.m4a"] :=
  ⟨rfl, rfl, rfl⟩

end Vox2docs
